import Mathlib

/-!
Verification development for the EquiComp comparable-company discovery
pipeline (src/comps.py).

The Python source is shallowly embedded as follows.

* Oracle (chat-completion and embedding) calls are modelled by an
  environment `OracleEnv` of per-call outcomes, indexed by a per-oracle
  call counter.  An outcome is always the result of `safe_parse_json` on
  the oracle response (or an exception of the underlying call), so the
  tolerant-parsing layer itself is abstracted into the outcome type.
* The mutable verification cache of `PublicStatusValidator`, the call
  counters and the `time.sleep` delays are carried in an explicit state
  record `PState`.  A fresh validator corresponds to the empty state.
* Python floats are modelled by `Rat`.  The single non-rational
  primitive of the source, the square root inside `np.linalg.norm`
  used by `cosine_similarity`, is modelled by the environment field
  `rsqrt` together with the predicate `SqrtLike`, which states the two
  facts about the real square root that the source relies on
  (nonnegativity, and positivity exactly on positive inputs).
* JSON fields of a parsed verification record that the code reads with
  `dict.get` are modelled with `JStr`, distinguishing an absent key
  (the `get` default applies) from an explicit JSON `null` (the `get`
  default does not apply) and from a string value.
* Presentation-only outputs that no decision of the pipeline reads
  (log lines, the `score_breakdown` strings, the metadata timestamp
  and the `validation_method` tag) are not modelled.
-/

/-- Model of a JSON field of a parsed oracle response that the source
reads as a string: the key can be absent, can hold JSON null, or can
hold a string. -/
inductive JStr where
  | missing
  | null
  | str (s : String)
deriving Repr, DecidableEq

/-- Python dict.get with a string default: the default applies only when
the key is absent; an explicit JSON null is returned as None. -/
def JStr.getD (j : JStr) (d : String) : Option String :=
  match j with
  | .missing => some d
  | .null => none
  | .str s => some s

/-- Python dict.get with default None: absent keys and null values are
indistinguishable. -/
def JStr.getOpt (j : JStr) : Option String :=
  match j with
  | .missing => none
  | .null => none
  | .str s => some s

/-- Python dict.setdefault: fills the field only when the key is absent. -/
def JStr.setD (j : JStr) (d : String) : JStr :=
  match j with
  | .missing => .str d
  | _ => j

/-- Python truthiness of a field read with dict.get: None (absent or
null) and the empty string are falsy; a nonempty string is returned. -/
def JStr.truthy (j : JStr) : Option String :=
  match j with
  | .str s => if s = "" then none else some s
  | _ => none

/-- Python str.lower over the ASCII domain of the source data. -/
def lowerStr (s : String) : String := String.mk (s.data.map Char.toLower)

/-- Python str.upper over the ASCII domain of the source data. -/
def upperStr (s : String) : String := String.mk (s.data.map Char.toUpper)

/-- ASCII whitespace, for the model of str.strip. -/
def isSpaceChar (c : Char) : Bool := c == ' ' || c == '\t' || c == '\n' || c == '\r'

/-- Python str.strip over the ASCII domain of the source data. -/
def trimStr (s : String) : String :=
  String.mk (((s.data.dropWhile isSpaceChar).reverse.dropWhile isSpaceChar).reverse)

/-- Substring test on character lists: some position of the haystack
starts with the needle. -/
def containsSub (hay needle : List Char) : Bool :=
  if needle.isPrefixOf hay then true
  else
    match hay with
    | [] => false
    | _ :: t => containsSub t needle

/-- The Python substring operator x in y (here: needle in hay). -/
def strContains (hay needle : String) : Bool := containsSub hay.data needle.data

/-- The target company record (the fields of the source dict that the
pipeline reads). -/
structure TargetCompany where
  name : String
  description : String
  primary_sic : String
deriving Repr, DecidableEq

/-- A candidate / comparable company: the fields of the source dict that
the pipeline reads, plus the annotation fields the pipeline writes
(the source stores those as the dict keys _caveat, _needs_verification,
_verification_note, normalized_description and validation_score). -/
structure ComparableCompany where
  name : String
  url : String
  exchange : String
  ticker : String
  business_activity : String
  customer_segment : String
  normalized_description : Option String
  caveat : Option String
  needs_verification : Bool
  verification_note : Option String
  validation_score : Option Rat
deriving Repr, DecidableEq

/-- A raw candidate as produced by the generation oracle: no annotation
set yet. -/
def mkCand (n u e t ba cs : String) : ComparableCompany :=
  ⟨n, u, e, t, ba, cs, none, none, false, none, none⟩

/-- A parsed verification record, as consumed by validate_companies.
The ticker / name / exchange echoes of the record are never read by any
decision of the source, so they are not modelled. -/
structure Verification where
  is_publicly_traded : Option Bool
  status : JStr
  confidence : JStr
  reason : JStr
  acquirer : JStr
  date_changed : JStr
  material_changes : JStr
deriving Repr, DecidableEq

/-- Result of parsing the target-analysis oracle response, after the
setdefault calls of analyze_target_company.  Only the three fields that
influence pipeline behaviour are modelled (the other analysis fields are
used in prompt text only). -/
structure TargetAnalysis where
  specialization_level : Rat
  core_focus_areas : List String
  business_model : String
deriving Repr, DecidableEq

/-- A rejection record.  In every rejection literal of the source the
keys reason and status are present; their values are modelled as
Option String with none for a JSON null copied from the oracle record.
For the acquirer / date / confidence keys an absent key and a null value
are conflated (no claim distinguishes them). -/
structure Rejection where
  company : ComparableCompany
  status : Option String
  reason : Option String
  acquirer : Option String
  date : Option String
  confidence : Option String
deriving Repr, DecidableEq

/-- Outcome of one single-company verification oracle call:
an exception, a parse to a non-dict, or a parsed record. -/
inductive SingleOutcome where
  | err
  | nonDict
  | ok (r : Verification)
deriving Repr

/-- Outcome of one batch verification oracle call: an exception (a parse
to a non-list behaves identically in the source, both take the per-item
fallback), or a parsed list of records (whose length the source checks). -/
inductive BatchOutcome where
  | err
  | ok (rs : List Verification)
deriving Repr

/-- Outcome of one candidate-generation oracle call.  A parse to a
non-list makes the source return [] without retrying, unlike an
exception, so the two are distinguished. -/
inductive GenOutcome where
  | err
  | nonList
  | ok (cs : List ComparableCompany)
deriving Repr

/-- Outcome of one normalization oracle call. -/
inductive NormOutcome where
  | err
  | ok (s : String)
deriving Repr

/-- Outcome of one embedding oracle call. -/
inductive EmbedOutcome where
  | err
  | ok (vs : List (List Rat))
deriving Repr

/-- Outcome of one business-model-match oracle call: an exception, a
response that is not a dict carrying a match_score key (the source falls
back to the neutral default either way), or a parsed match score. -/
inductive ModelOutcome where
  | err
  | noScore
  | ok (q : Rat)
deriving Repr

/-- Outcome of the one target-analysis oracle call, before the
setdefault calls (absent fields are filled with the defaults). -/
inductive AnalysisOutcome where
  | err
  | ok (sl : Option Rat) (fa : Option (List String)) (bm : Option String)

/-- The oracle environment: one outcome per call, indexed by that
oracle's call counter, plus the square-root model for cosine
similarity. -/
structure OracleEnv where
  rsqrt : Rat → Rat
  analysisO : AnalysisOutcome
  genO : Nat → GenOutcome
  singleO : Nat → SingleOutcome
  batchO : Nat → BatchOutcome
  normO : Nat → NormOutcome
  embedO : Nat → EmbedOutcome
  modelO : Nat → ModelOutcome

/-- The mutable state threaded through one search: the verification
cache of the PublicStatusValidator, the per-oracle call counters, and
the sequence of time.sleep delays performed (in seconds). -/
structure PState where
  cache : List (String × Verification)
  nGen : Nat
  nSingle : Nat
  nBatch : Nat
  nNorm : Nat
  nEmbed : Nat
  nModel : Nat
  delays : List Rat
deriving Repr, DecidableEq

/-- The fresh state: a newly constructed validator with an empty cache
and no calls made. -/
def st0 : PState := ⟨[], 0, 0, 0, 0, 0, 0, []⟩

/-- The properties of the real square root that the source relies on in
cosine_similarity: the norm product is nonnegative, and positive exactly
when both squared norms are positive.  (The identity function is a
SqrtLike witness, so the hypothesis is satisfiable by a rational
function even though the exact square root is not rational.) -/
def SqrtLike (f : Rat → Rat) : Prop :=
  (∀ q, 0 ≤ q → 0 ≤ f q) ∧ (∀ q, 0 ≤ q → (0 < f q ↔ 0 < q))

/-- Lookup in the validator cache (a Python dict keyed by strings). -/
def cacheLookup (cache : List (String × Verification)) (k : String) : Option Verification :=
  (cache.find? (fun p => p.1 == k)).map (fun p => p.2)

/-- Store into the validator cache; a later store for the same key
shadows an earlier one, matching dict assignment observationally. -/
def cacheInsert (cache : List (String × Verification)) (k : String) (v : Verification) :
    List (String × Verification) :=
  (k, v) :: cache

/-- The cache key used by verify_single_company:
ticker.upper().strip() joined to the exchange with a colon. -/
def singleKey (c : ComparableCompany) : String :=
  trimStr (upperStr c.ticker) ++ ":" ++ c.exchange

/-- The cache key used by the batch path of verify_batch:
ticker.upper() (no strip) joined to the exchange with a colon. -/
def batchKey (c : ComparableCompany) : String :=
  upperStr c.ticker ++ ":" ++ c.exchange

/-- The UNCERTAIN / LOW record verify_single_company builds when the
oracle call fails or parses to a non-dict (the literal of the source
has no acquirer, date_changed or material_changes keys). -/
def failureRecord : Verification :=
  ⟨none, .str "UNCERTAIN", .str "LOW",
   .str "Verification failed - manual check required", .missing, .missing, .missing⟩

/-- The setdefault calls of verify_single_company on a parsed record:
status defaults to UNCERTAIN and confidence to LOW when the keys are
absent (is_publicly_traded is defaulted to None, which is invisible in
the model since absent and null are both none). -/
def applyDefaults (r : Verification) : Verification :=
  { r with status := r.status.setD "UNCERTAIN", confidence := r.confidence.setD "LOW" }

/-- PublicStatusValidator.verify_single_company: serve from the cache
when the key is present; otherwise make one oracle call, cache and
return the parsed record (with defaults applied), or the failure record
when the call fails or does not parse to a dict. -/
def verify_single_company (env : OracleEnv) (st : PState) (c : ComparableCompany) :
    Verification × PState :=
  let key := singleKey c
  match cacheLookup st.cache key with
  | some v => (v, st)
  | none =>
    let outcome := env.singleO st.nSingle
    let st := { st with nSingle := st.nSingle + 1 }
    match outcome with
    | .ok r =>
      let v := applyDefaults r
      (v, { st with cache := cacheInsert st.cache key v })
    | _ =>
      (failureRecord, { st with cache := cacheInsert st.cache key failureRecord })

/-- The per-item fallback of verify_batch: verify each company of the
batch individually, in order. -/
def fallbackAll (env : OracleEnv) (st : PState) :
    List ComparableCompany → List Verification × PState
  | [] => ([], st)
  | c :: rest =>
    let p := verify_single_company env st c
    let q := fallbackAll env p.2 rest
    (p.1 :: q.1, q.2)

/-- The cache writes of the batch-success path of verify_batch: each
raw record is stored under the batch key of its company, in order. -/
def writeAll (cache : List (String × Verification)) :
    List (ComparableCompany × Verification) → List (String × Verification)
  | [] => cache
  | (c, v) :: rest => writeAll (cacheInsert cache (batchKey c) v) rest

/-- The batch loop of verify_batch, fuelled by the number of companies
(each step consumes at least one company when the batch size is
positive; the source raises on batch size 0, a corner no call site
reaches and no claim concerns).  One oracle call is made per batch; on
a parsed list of matching length the raw records are cached and
returned, otherwise every company of the batch is verified
individually.  A 0.5 second delay separates consecutive batches. -/
def verifyBatchGo (env : OracleEnv) (bs : Nat) :
    Nat → List ComparableCompany → PState → List Verification × PState
  | 0, _, st => ([], st)
  | _, [], st => ([], st)
  | fuel + 1, c :: cs, st =>
    let companies := c :: cs
    let batch := companies.take bs
    let rest := companies.drop bs
    let outcome := env.batchO st.nBatch
    let st := { st with nBatch := st.nBatch + 1 }
    let p :=
      match outcome with
      | .ok vs =>
        if vs.length = batch.length then
          (vs, { st with cache := writeAll st.cache (batch.zip vs) })
        else
          fallbackAll env st batch
      | .err => fallbackAll env st batch
    let st :=
      if rest.isEmpty then p.2 else { p.2 with delays := p.2.delays ++ [(1 : Rat)/2] }
    let q := verifyBatchGo env bs fuel rest st
    (p.1 ++ q.1, q.2)

/-- PublicStatusValidator.verify_batch with its default batch size
threaded explicitly by the caller. -/
def verify_batch (env : OracleEnv) (st : PState) (companies : List ComparableCompany)
    (batch_size : Nat) : List Verification × PState :=
  verifyBatchGo env batch_size companies.length companies st

/-- The per-candidate decision of validate_companies, given the
candidate and its verification record: accepted (left, possibly
annotated) or rejected (right). -/
def decideOne (c : ComparableCompany) (v : Verification) :
    Sum ComparableCompany Rejection :=
  let status := v.status.getD "UNCERTAIN"
  let is_public := v.is_publicly_traded
  let confidence := v.confidence.getD "LOW"
  if is_public = some true ∧ status = some "ACTIVE" then
    match v.material_changes.truthy with
    | some m => .inl { c with caveat := some ("Material change: " ++ m) }
    | none => .inl c
  else if is_public = some false ∨
      status ∈ [some "ACQUIRED", some "MERGED", some "DELISTED", some "PRIVATE"] then
    .inr ⟨c, status, v.reason.getD "No longer publicly traded",
          v.acquirer.getOpt, v.date_changed.getOpt, confidence⟩
  else if status = some "UNCERTAIN" ∧ confidence = some "LOW" then
    .inr ⟨c, some "UNCERTAIN",
          some "Could not confirm public trading status - manual verification required",
          none, none, some "LOW"⟩
  else
    .inl { c with needs_verification := true,
                  verification_note := v.reason.getD "Status uncertain" }

/-- The zip loop of validate_companies: fold the per-candidate decision
over the candidates paired with their verification records, preserving
order on both sides. -/
def decideAll : List (ComparableCompany × Verification) →
    List ComparableCompany × List Rejection
  | [] => ([], [])
  | (c, v) :: rest =>
    let q := decideAll rest
    match decideOne c v with
    | .inl c => (c :: q.1, q.2)
    | .inr r => (q.1, r :: q.2)

/-- PublicStatusValidator.validate_companies: empty input short-circuits;
otherwise verify in batches (size 5) and split the companies into
accepted and rejected by the decision table. -/
def validate_companies (env : OracleEnv) (st : PState)
    (companies : List ComparableCompany) :
    (List ComparableCompany × List Rejection) × PState :=
  if companies = [] then (([], []), st)
  else
    let p := verify_batch env st companies 5
    (decideAll (companies.zip p.1), p.2)

/-- is_valid_company_data: the five required fields must be nonempty
after stripping and must not be a placeholder value.  (The non-string
case of the source cannot arise in the model, where fields are
strings.) -/
def is_valid_company_data (c : ComparableCompany) : Bool :=
  [c.name, c.url, c.exchange, c.ticker, c.business_activity].all
    (fun v => !(trimStr v == "") && !(["na", "n/a", "none", "unknown"].contains (lowerStr v)))

/-- The fixed structural non-operating signals of
is_operating_company_basic, with their rejection reasons, in source
order. -/
def structuralNonOperating : List (String × String) :=
  [("holding company", "Holding company structure"),
   ("investment vehicle", "Investment vehicle"),
   ("spac", "Special Purpose Acquisition Company"),
   ("shell company", "Shell company"),
   ("investment trust", "Investment trust structure"),
   ("blank check", "Blank check company"),
   ("special purpose acquisition", "SPAC structure")]

/-- is_operating_company_basic: scan business_activity and name
(lowercased, space separated) for the first structural signal; return
whether the company looks operating, with the reason when it does not. -/
def is_operating_company_basic (c : ComparableCompany) : Bool × Option String :=
  let text := lowerStr (c.business_activity ++ " " ++ c.name)
  match structuralNonOperating.find? (fun p => strContains text p.1) with
  | some p => (false, some p.2)
  | none => (true, none)

/-- The data-completeness and structural-entity filter loop of
validate_and_rank_comparables (step 4a): candidates failing data
validation are rejected with status DATA_INVALID, structurally
non-operating candidates with status NON_OPERATING, the rest pass
through unchanged; order is preserved on both sides. -/
def dataStage : List ComparableCompany → List ComparableCompany × List Rejection
  | [] => ([], [])
  | c :: rest =>
    let q := dataStage rest
    if !(is_valid_company_data c) then
      (q.1, ⟨c, some "DATA_INVALID", some "Incomplete data", none, none, none⟩ :: q.2)
    else
      match is_operating_company_basic c with
      | (false, reason) =>
        (q.1, ⟨c, some "NON_OPERATING", reason, none, none, none⟩ :: q.2)
      | (true, _) => (c :: q.1, q.2)

/-- normalize_for_comparability: one oracle call; on success the
stripped response text, on failure the input description unchanged. -/
def normalize_for_comparability (env : OracleEnv) (st : PState) (description : String)
    (analysis : TargetAnalysis) : String × PState :=
  let outcome := env.normO st.nNorm
  let st := { st with nNorm := st.nNorm + 1 }
  match outcome with
  | .ok s => (trimStr s, st)
  | .err => (description, st)

/-- embed_texts: one oracle call; on failure a zero matrix of width 1536
(one zero vector per input text), on success the response vectors. -/
def embed_texts (env : OracleEnv) (st : PState) (texts : List String) :
    List (List Rat) × PState :=
  let outcome := env.embedO st.nEmbed
  let st := { st with nEmbed := st.nEmbed + 1 }
  match outcome with
  | .err => (texts.map (fun _ => List.replicate 1536 (0 : Rat)), st)
  | .ok vs => (vs, st)

/-- Dot product of two vectors, zipped as np.dot over equal-length
inputs (extra entries of a longer vector are ignored). -/
def dotList (a b : List Rat) : Rat :=
  (a.zip b).foldl (fun s p => s + p.1 * p.2) 0

/-- Squared Euclidean norm. -/
def sumSq (a : List Rat) : Rat := dotList a a

/-- cosine_similarity: dot product over the product of norms, guarded to
0.0 when the norm product is not positive.  The square root inside
np.linalg.norm is the rsqrt parameter (see SqrtLike). -/
def cosine_similarity (rsqrt : Rat → Rat) (a b : List Rat) : Rat :=
  let norm_product := rsqrt (sumSq a) * rsqrt (sumSq b)
  if 0 < norm_product then dotList a b / norm_product else 0

/-- assess_business_model_match, reduced to the value the scorer reads:
the parsed match_score on success, 1/2 when the call fails or the
response is not a dict carrying a match_score key. -/
def assess_business_model_match (env : OracleEnv) (st : PState) : Rat × PState :=
  let outcome := env.modelO st.nModel
  let st := { st with nModel := st.nModel + 1 }
  match outcome with
  | .ok q => (q, st)
  | _ => ((1 : Rat)/2, st)

/-- Python round(x, 3) on the exact rational value: half-to-even tie
breaking (the source rounds a float; ties are avoided in all concrete
inputs of this development). -/
def round3 (q : Rat) : Rat :=
  let x := q * 1000
  let f : Int := ⌊x⌋
  let r := x - (f : Rat)
  let n : Int :=
    if (1 : Rat)/2 < r then f + 1
    else if r < (1 : Rat)/2 then f
    else if f % 2 = 0 then f else f + 1
  (n : Rat) / 1000

/-- Python truthiness of the _caveat annotation. -/
def caveatTruthy (c : ComparableCompany) : Bool :=
  match c.caveat with
  | some s => !(s == "")
  | none => false

/-- score_comparable: base 1.0; plus cosine similarity of the target
embedding and the embedding of the normalized description, weighted
3 + 2 * specialization; plus the focus-area overlap fraction weighted
1.5 (only when focus areas exist); plus the business-model match score
weighted 0.75; minus 0.5 for a caveat and 0.25 for the
needs-verification flag; rounded to 3 decimals.  When the embedding
response carries no vector the source catches the IndexError and adds
no semantic term, modelled by the empty-head case. -/
def score_comparable (env : OracleEnv) (st : PState) (c : ComparableCompany)
    (analysis : TargetAnalysis) (target_embedding : List Rat)
    (target_description : String) : Rat × PState :=
  let comp_normalized := c.normalized_description.getD c.business_activity
  let score : Rat := 1
  let pe := embed_texts env st [comp_normalized]
  let st := pe.2
  let score :=
    match pe.1.head? with
    | some v =>
      score + cosine_similarity env.rsqrt target_embedding v *
        (3 + analysis.specialization_level * 2)
    | none => score
  let score :=
    if analysis.core_focus_areas = [] then score
    else
      let text_lower := lowerStr comp_normalized
      let nMatches :=
        (analysis.core_focus_areas.filter
          (fun a => strContains text_lower (lowerStr a))).length
      score + ((nMatches : Rat) / (analysis.core_focus_areas.length : Rat)) * (3/2)
  let pm := assess_business_model_match env st
  let st := pm.2
  let score := score + pm.1 * (3/4)
  let score := if caveatTruthy c then score - 1/2 else score
  let score := if c.needs_verification then score - 1/4 else score
  (round3 score, st)

/-- The normalization loop of validate_and_rank_comparables (step 4c):
every validated company without a normalized_description gets one from
the normalizer, fed with business_activity and customer_segment. -/
def normStage (env : OracleEnv) (st : PState) (analysis : TargetAnalysis) :
    List ComparableCompany → List ComparableCompany × PState
  | [] => ([], st)
  | c :: rest =>
    let p :=
      match c.normalized_description with
      | some _ => (c, st)
      | none =>
        let text := c.business_activity ++ " " ++ c.customer_segment
        let pn := normalize_for_comparability env st text analysis
        ({ c with normalized_description := some pn.1 }, pn.2)
    let q := normStage env p.2 analysis rest
    (p.1 :: q.1, q.2)

/-- The scoring loop of validate_and_rank_comparables (step 4d): every
validated company gets a validation_score. -/
def scoreStage (env : OracleEnv) (st : PState) (analysis : TargetAnalysis)
    (target_embedding : List Rat) (target_description : String) :
    List ComparableCompany → List ComparableCompany × PState
  | [] => ([], st)
  | c :: rest =>
    let p := score_comparable env st c analysis target_embedding target_description
    let q := scoreStage env p.2 analysis target_embedding target_description rest
    ({ c with validation_score := some p.1 } :: q.1, q.2)

/-- The sort key of the final ranking (validation_score is present on
every scored company; 0 is a formal default). -/
def scoreOf (c : ComparableCompany) : Rat := c.validation_score.getD 0

/-- Stable descending insertion, placing a company after all
already-placed companies with scores at least as high. -/
def insertDesc (c : ComparableCompany) : List ComparableCompany → List ComparableCompany
  | [] => [c]
  | d :: rest =>
    if scoreOf d ≤ scoreOf c then c :: d :: rest else d :: insertDesc c rest

/-- Stable descending sort by validation_score, the model of Python
sorted(..., key=score, reverse=True) (any stable sort agrees with it). -/
def sortByScoreDesc : List ComparableCompany → List ComparableCompany
  | [] => []
  | c :: rest => insertDesc c (sortByScoreDesc rest)

/-- The threshold loop of validate_and_rank_comparables: try thresholds
in order, return the qualifying prefix-truncated list at the first
threshold met by at least min_required companies, else the best-scoring
companies truncated. -/
def applyThresholds (ts : List Rat) (scored : List ComparableCompany)
    (min_required max_allowed : Nat) : List ComparableCompany :=
  match ts with
  | [] => scored.take max_allowed
  | t :: rest =>
    let filtered := scored.filter (fun c => t ≤ scoreOf c)
    if min_required ≤ filtered.length then filtered.take max_allowed
    else applyThresholds rest scored min_required max_allowed

/-- Steps 4a to 4d of validate_and_rank_comparables, up to and including
the descending sort: the ranked list, all rejections accumulated across
the stages of this call, and the final state. -/
def rankedStage (env : OracleEnv) (st : PState) (candidates : List ComparableCompany)
    (analysis : TargetAnalysis) (target_embedding : List Rat)
    (target_description : String) :
    (List ComparableCompany × List Rejection) × PState :=
  let pd := dataStage candidates
  let pv := validate_companies env st pd.1
  let pn := normStage env pv.2 analysis pv.1.1
  let ps := scoreStage env pn.2 analysis target_embedding target_description pn.1
  ((sortByScoreDesc ps.1, pd.2 ++ pv.1.2), ps.2)

/-- validate_and_rank_comparables: rank the candidates, then select with
the threshold ladder [5,4,3] when specialization_level is at least 0.7
and [4,3,2] otherwise. -/
def validate_and_rank_comparables (env : OracleEnv) (st : PState)
    (candidates : List ComparableCompany) (analysis : TargetAnalysis)
    (target_embedding : List Rat) (target_description : String)
    (min_required max_allowed : Nat) :
    (List ComparableCompany × List Rejection) × PState :=
  let pr := rankedStage env st candidates analysis target_embedding target_description
  let thresholds : List Rat :=
    if (7 : Rat)/10 ≤ analysis.specialization_level then [5, 4, 3] else [4, 3, 2]
  ((applyThresholds thresholds pr.1.1 min_required max_allowed, pr.1.2), pr.2)

/-- The retry recursion of generate_candidate_comparables, fuelled by
3 - attempt: the source retries while attempt < 3, so the fuel is
positive exactly when a retry is allowed.  One oracle call per try; a
non-list parse returns [] at once; a successful parse is filtered by
the case-insensitive target-name exclusion; a failed call sleeps
2 ^ attempt seconds and retries with attempt + 1, or returns [] when
the budget is exhausted. -/
def generateGo (env : OracleEnv) (target : TargetCompany) (analysis : TargetAnalysis)
    (max_candidates : Nat) (use_broader_search : Bool) :
    Nat → Nat → PState → List ComparableCompany × PState
  | fuel, attempt, st =>
    let outcome := env.genO st.nGen
    let st := { st with nGen := st.nGen + 1 }
    match outcome with
    | .nonList => ([], st)
    | .ok cs =>
      let target_name_lower := lowerStr target.name
      (cs.filter (fun c => !(strContains (lowerStr c.name) target_name_lower)), st)
    | .err =>
      match fuel with
      | 0 => ([], st)
      | f + 1 =>
        let st := { st with delays := st.delays ++ [(2 : Rat) ^ attempt] }
        generateGo env target analysis max_candidates use_broader_search f (attempt + 1) st

/-- generate_candidate_comparables, entered at the given attempt counter
(the source default is 1; find_comparables passes its loop attempt). -/
def generate_candidate_comparables (env : OracleEnv) (st : PState)
    (target : TargetCompany) (analysis : TargetAnalysis) (max_candidates : Nat)
    (attempt : Nat) (use_broader_search : Bool) : List ComparableCompany × PState :=
  generateGo env target analysis max_candidates use_broader_search (3 - attempt) attempt st

/-- analyze_target_company: one oracle call; on success the parsed
fields with setdefault fallbacks, on failure (or a non-dict parse,
which raises inside the same try) the safe default profile. -/
def analyze_target_company (env : OracleEnv) (st : PState) (target : TargetCompany) :
    TargetAnalysis × PState :=
  match env.analysisO with
  | .err => (⟨1/2, [], "other"⟩, st)
  | .ok sl fa bm => (⟨sl.getD (1/2), fa.getD [], bm.getD "other"⟩, st)

/-- The search metadata surfaced by find_comparables (the timestamp and
the constant validation_method tag are not modelled). -/
structure SearchMetadata where
  target : String
  rejected_companies : List Rejection
  analysis : TargetAnalysis
deriving Repr, DecidableEq

/-- The attempt loop of find_comparables, fuelled by the number of
remaining attempts.  Each attempt generates candidates (broader mode
after attempt 1 while the best count is short), skips with a 2 second
sleep when generation is empty, otherwise validates and ranks with
max_allowed 10; a count reaching min_required returns that attempt
outright, otherwise the attempt replaces the best exactly when its
count is strictly larger, and a 2 second sleep separates attempts. -/
def findLoop (env : OracleEnv) (target : TargetCompany) (analysis : TargetAnalysis)
    (target_embedding : List Rat) (min_required max_attempts : Nat) :
    Nat → Nat → (List ComparableCompany × List Rejection) → PState →
    (List ComparableCompany × List Rejection) × PState
  | 0, _, best, st => (best, st)
  | remaining + 1, attempt, best, st =>
    let use_broader := decide (1 < attempt) && decide (best.1.length < min_required)
    let pg := generate_candidate_comparables env st target analysis 25 attempt use_broader
    if pg.1 = [] then
      let st := { pg.2 with delays := pg.2.delays ++ [2] }
      findLoop env target analysis target_embedding min_required max_attempts
        remaining (attempt + 1) best st
    else
      let pv :=
        validate_and_rank_comparables env pg.2 pg.1 analysis target_embedding
          target.description min_required 10
      if min_required ≤ pv.1.1.length then pv
      else
        let best := if best.1.length < pv.1.1.length then pv.1 else best
        let st :=
          if attempt < max_attempts then { pv.2 with delays := pv.2.delays ++ [2] } else pv.2
        findLoop env target analysis target_embedding min_required max_attempts
          remaining (attempt + 1) best st

/-- Steps 1 and 2 of find_comparables: analyze the target once, then
normalize its description and embed it once.  The source indexes the
embedding matrix at 0; an embedding response with no rows would raise
there, a corner no claim concerns, modelled by a zero-vector default. -/
def findSetup (env : OracleEnv) (target : TargetCompany) :
    (TargetAnalysis × List Rat) × PState :=
  let pa := analyze_target_company env st0 target
  let pn := normalize_for_comparability env pa.2 target.description pa.1
  let pe := embed_texts env pn.2 [pn.1]
  ((pa.1, pe.1.headD (List.replicate 1536 (0 : Rat))), pe.2)

/-- find_comparables: a fresh validator and state per search; analyze
and embed the target once, then run the attempt loop from attempt 1
with an empty best; the returned metadata carries the rejections of
the returned attempt. -/
def find_comparables (env : OracleEnv) (target : TargetCompany)
    (min_required max_attempts : Nat) :
    (List ComparableCompany × SearchMetadata) × PState :=
  let ps := findSetup env target
  let pl :=
    findLoop env target ps.1.1 ps.1.2 min_required max_attempts
      max_attempts 1 ([], []) ps.2
  ((pl.1.1, ⟨target.name, pl.1.2, ps.1.1⟩), pl.2)

/-- A well-formed candidate. -/
def candA : ComparableCompany := mkCand "Alphaco" "https://a.com" "NYSE" "AAA" "makes widgets" "industry"

/-- A verification record confirming active public trading. -/
def verActive : Verification :=
  ⟨some true, .str "ACTIVE", .str "HIGH", .missing, .missing, .missing, .missing⟩

/-- A base environment all concrete environments below refine. -/
def envBase : OracleEnv where
  rsqrt := id
  analysisO := .err
  genO := fun _ => .nonList
  singleO := fun _ => .err
  batchO := fun _ => .err
  normO := fun _ => .err
  embedO := fun _ => .ok [[]]
  modelO := fun _ => .err

/-- Environment for the C1 counterexample: every batch verification
call parses to a one-record list. -/
def envC1 : OracleEnv := { envBase with batchO := fun _ => .ok [verActive] }

/-- Environment for the C10 counterexample: individual calls fail,
batch calls succeed. -/
def envC10 : OracleEnv := { envBase with batchO := fun _ => .ok [verActive] }

/-- An UNCERTAIN / LOW record with no explicit reason. -/
def verUncLow : Verification :=
  ⟨none, .str "UNCERTAIN", .str "LOW", .missing, .missing, .missing, .missing⟩

/-- An UNCERTAIN / MEDIUM record that also reports the company as not
publicly traded. -/
def verUncMedFalse : Verification :=
  ⟨some false, .str "UNCERTAIN", .str "MEDIUM", .str "Could not verify listing",
   .missing, .missing, .missing⟩

/-- Environment whose batch verification yields the UNCERTAIN / LOW record. -/
def envC4a : OracleEnv := { envBase with batchO := fun _ => .ok [verUncLow] }

/-- Environment whose batch verification yields the UNCERTAIN / MEDIUM /
not-publicly-traded record. -/
def envC4b : OracleEnv := { envBase with batchO := fun _ => .ok [verUncMedFalse] }

/-- Environment for the C6 witness: the generation oracle fails twice,
then returns a one-candidate list. -/
def envC6 : OracleEnv :=
  { envBase with
    genO := fun n => match n with
      | 0 => .err
      | 1 => .err
      | _ => .ok [candA] }

/-- Spec-side description of threshold selection: the first threshold
of the ladder for which at least min_required ranked companies score at
least the threshold determines the result, namely those qualifying
companies truncated to max_allowed; when no threshold qualifies, the
best-scoring companies truncated to max_allowed. -/
def specSelect (ladder : List Rat) (ranked : List ComparableCompany)
    (min_required max_allowed : Nat) : List ComparableCompany :=
  match ladder.find?
      (fun t => decide (min_required ≤ (ranked.filter (fun c => t ≤ scoreOf c)).length)) with
  | some t => (ranked.filter (fun c => t ≤ scoreOf c)).take max_allowed
  | none => ranked.take max_allowed

/-- The name-exclusion property a candidate must satisfy to survive the
generation post-filter. -/
def nameOk (target : TargetCompany) (c : ComparableCompany) : Prop :=
  strContains (lowerStr c.name) (lowerStr target.name) = false

/-- Environment for the C8 witness: one generated candidate that is
verified active and scored. -/
def envC8 : OracleEnv :=
  { envBase with
    genO := fun _ => .ok [candA]
    batchO := fun _ => .ok [verActive]
    embedO := fun n => if n = 0 then .ok [[]] else .ok [[1]] }

/-- The comparable the C8 witness search returns. -/
def compC8 : ComparableCompany :=
  { candA with
    normalized_description := some "makes widgets industry"
    validation_score := some (11/8) }

/-- Instrumented attempt loop: identical control flow and state
threading as findLoop, additionally returning the (comparables,
rejections) outcome of every validate-and-rank call performed, in
order. -/
def findLoopT (env : OracleEnv) (target : TargetCompany) (analysis : TargetAnalysis)
    (target_embedding : List Rat) (min_required max_attempts : Nat) :
    Nat → Nat → (List ComparableCompany × List Rejection) → PState →
    List (List ComparableCompany × List Rejection) ×
      ((List ComparableCompany × List Rejection) × PState)
  | 0, _, best, st => ([], (best, st))
  | remaining + 1, attempt, best, st =>
    let use_broader := decide (1 < attempt) && decide (best.1.length < min_required)
    let pg := generate_candidate_comparables env st target analysis 25 attempt use_broader
    if pg.1 = [] then
      let st := { pg.2 with delays := pg.2.delays ++ [2] }
      findLoopT env target analysis target_embedding min_required max_attempts
        remaining (attempt + 1) best st
    else
      let pv :=
        validate_and_rank_comparables env pg.2 pg.1 analysis target_embedding
          target.description min_required 10
      if min_required ≤ pv.1.1.length then ([pv.1], (pv.1, pv.2))
      else
        let best := if best.1.length < pv.1.1.length then pv.1 else best
        let st :=
          if attempt < max_attempts then { pv.2 with delays := pv.2.delays ++ [2] } else pv.2
        let q := findLoopT env target analysis target_embedding min_required max_attempts
          remaining (attempt + 1) best st
        (pv.1 :: q.1, q.2)

/-- Spec-side selection over the per-attempt outcomes: the first
attempt reaching min_required wins outright; otherwise an attempt
replaces the running best exactly when its comparable count is strictly
larger, and the final best is returned. -/
def chooseAttempt (mr : Nat) :
    (List ComparableCompany × List Rejection) →
    List (List ComparableCompany × List Rejection) →
    (List ComparableCompany × List Rejection)
  | best, [] => best
  | best, p :: rest =>
    if mr ≤ p.1.length then p
    else chooseAttempt mr (if best.1.length < p.1.length then p else best) rest

/-- The per-attempt (comparables, rejections) outcomes of a search. -/
def findTrace (env : OracleEnv) (target : TargetCompany) (mr mA : Nat) :
    List (List ComparableCompany × List Rejection) :=
  (findLoopT env target (findSetup env target).1.1 (findSetup env target).1.2 mr mA
    mA 1 ([], []) (findSetup env target).2).1

/-- A candidate failing data completeness (empty url). -/
def candBad : ComparableCompany := mkCand "Badco" "" "NYSE" "BBB" "makes gizmos" "industry"

/-- Environment for the C2 counterexample: attempt 1 generates only the
data-invalid candidate (whose rejection is recorded), attempt 2
generates a good candidate that is verified and scored, so the search
succeeds on attempt 2. -/
def envC2 : OracleEnv :=
  { envBase with
    genO := fun n => if n = 0 then .ok [candBad] else .ok [candA]
    batchO := fun _ => .ok [verActive]
    embedO := fun n => if n = 0 then .ok [[]] else .ok [[1]] }

/-- The pipeline state at the validate-and-rank call of attempt 1 of
the C2 counterexample search (after one analysis, one normalization,
one embedding and one generation call). -/
def stC2attempt1 : PState := ⟨[], 1, 0, 0, 1, 1, 0, []⟩

/-- The focus-area overlap fraction of the scorer (0 when no focus
areas exist, matching the source, which adds no focus term then). -/
def focusOverlap (a : TargetAnalysis) (c : ComparableCompany) : Rat :=
  if a.core_focus_areas = [] then 0
  else
    ((a.core_focus_areas.filter (fun s =>
        strContains (lowerStr (c.normalized_description.getD c.business_activity))
          (lowerStr s))).length : Rat)
      / (a.core_focus_areas.length : Rat)

/-- Environment for the C5 witness and counterexample: the embedding
and business-model oracles fail on every call. -/
def envC5 : OracleEnv := { envBase with embedO := fun _ => .err }

/-- A JSON field whose dict.get resolution (with a nonempty default) is
a nonempty string: the field is not JSON null and not the empty string
(an absent key is fine, the defaults of the source are nonempty). -/
def wfField (j : JStr) : Prop := j ≠ .null ∧ j ≠ .str ""

/-- A verification record whose status and reason fields resolve to
nonempty strings. -/
def WFVer (v : Verification) : Prop := wfField v.status ∧ wfField v.reason

/-- An oracle environment whose verification responses are
well-formed. -/
def EnvWF (env : OracleEnv) : Prop :=
  (∀ n vs, env.batchO n = .ok vs → ∀ v ∈ vs, WFVer v) ∧
  (∀ n r, env.singleO n = .ok r → WFVer r)

/-- Every record of a cache is well-formed. -/
def cacheWF (cache : List (String × Verification)) : Prop :=
  ∀ k v, cacheLookup cache k = some v → WFVer v

/-- The reason and status of a rejection are present, non-null and
nonempty. -/
def RejWF (r : Rejection) : Prop :=
  (∃ s, r.status = some s ∧ s ≠ "") ∧ (∃ s, r.reason = some s ∧ s ≠ "")

/-- Environment for the C9 witness: the only generated candidate fails
the data filter, min_required 0 makes attempt 1 succeed at once. -/
def envC9w : OracleEnv := { envBase with genO := fun _ => .ok [candBad] }

/-- A second well-formed candidate for the C9 counterexample. -/
def candB : ComparableCompany :=
  mkCand "Betaco" "https://b.com" "NYSE" "BBB" "makes gadgets" "industry"

/-- An ACQUIRED record whose reason is JSON null. -/
def verAcqNull : Verification :=
  ⟨some false, .str "ACQUIRED", .str "HIGH", .null, .missing, .missing, .missing⟩

/-- Environment for the C9 counterexample: two candidates are
generated; the batch verification confirms the first active and reports
the second acquired with a null reason. -/
def envC9 : OracleEnv :=
  { envBase with
    genO := fun _ => .ok [candA, candB]
    batchO := fun _ => .ok [verActive, verAcqNull]
    embedO := fun n => if n = 0 then .ok [[]] else .ok [[1]] }

/-! ### Theorems -/

/-- Helper: looking up the key just inserted returns the inserted record. -/
theorem cacheLookup_insert_self (cache : List (String × Verification)) (k : String)
    (v : Verification) : cacheLookup (cacheInsert cache k v) k = some v := by
  simp [cacheLookup, cacheInsert]

/-- Claim C1 (amended): the cache serves the individual-verification
path.  If the ticker+exchange key of a candidate is cached,
verify_single_company returns the cached record and leaves the state
(counters included) unchanged; and for two candidates with the same
key, a second verify_single_company immediately after the first returns
the same record with no further state change, the two calls together
issuing at most one verification oracle call and no batch call. -/
theorem claim1_cache_individual_path (env : OracleEnv) (st : PState)
    (c1 c2 : ComparableCompany) (hkey : singleKey c1 = singleKey c2) :
    (∀ v, cacheLookup st.cache (singleKey c1) = some v →
      verify_single_company env st c1 = (v, st)) ∧
    verify_single_company env (verify_single_company env st c1).2 c2
      = verify_single_company env st c1 ∧
    (verify_single_company env st c1).2.nSingle ≤ st.nSingle + 1 ∧
    (verify_single_company env st c1).2.nBatch = st.nBatch := by
  refine ⟨fun v hv => by simp [verify_single_company, hv], ?_⟩
  unfold verify_single_company
  rcases h : cacheLookup st.cache (singleKey c1) with _ | v
  · rcases ho : env.singleO st.nSingle with _ | _ | r <;>
      simp [← hkey, h, ho, cacheLookup_insert_self]
  · simp [← hkey, h]

/-- Witness for C1: a concrete second individual lookup of an already
verified pair returns the first result with no state change. -/
theorem claim1_cache_individual_path_w :
    verify_single_company envBase (verify_single_company envBase st0 candA).2 candA
      = verify_single_company envBase st0 candA ∧
    (verify_single_company envBase st0 candA).2.nSingle ≤ st0.nSingle + 1 := by
  have h := claim1_cache_individual_path envBase st0 candA candA rfl
  exact ⟨h.2.1, h.2.2.1⟩

/-- Counterexample to C1 as stated: the batch path of verify_batch does
not read the cache.  After validate_companies has verified candA (its
ticker+exchange record is cached), a second validate_companies on the
same candidate issues a second batch verification oracle call instead
of serving the pair from the cache. -/
theorem claim1_cx :
    (validate_companies envC1 st0 [candA]).2.nBatch = 1 ∧
    cacheLookup (validate_companies envC1 st0 [candA]).2.cache (singleKey candA)
      = some verActive ∧
    (validate_companies envC1 (validate_companies envC1 st0 [candA]).2 [candA]).2.nBatch = 2 := by
  with_unfolding_all decide

/-- Claim C10 (amended): when the individual verification oracle call
fails, the UNCERTAIN/LOW failure record is cached under the candidate
key, and every later individual verification of the same key returns
the cached failure record with no further oracle call. -/
theorem claim10_failure_cached (env : OracleEnv) (st : PState) (c : ComparableCompany)
    (hmiss : cacheLookup st.cache (singleKey c) = none)
    (herr : env.singleO st.nSingle = .err) :
    verify_single_company env st c
      = (failureRecord,
         { st with
           nSingle := st.nSingle + 1
           cache := cacheInsert st.cache (singleKey c) failureRecord }) ∧
    (∀ c2, singleKey c2 = singleKey c →
      verify_single_company env (verify_single_company env st c).2 c2
        = (failureRecord, (verify_single_company env st c).2)) := by
  constructor
  · simp [verify_single_company, hmiss, herr]
  · intro c2 hkey
    simp [verify_single_company, hmiss, herr, hkey, cacheLookup_insert_self]

/-- Witness for C10: a concrete failed verification is cached and a
repeat individual lookup returns the cached failure record. -/
theorem claim10_failure_cached_w :
    verify_single_company envBase st0 candA
      = (failureRecord,
         { st0 with
           nSingle := 1
           cache := cacheInsert st0.cache (singleKey candA) failureRecord }) ∧
    verify_single_company envBase (verify_single_company envBase st0 candA).2 candA
      = (failureRecord, (verify_single_company envBase st0 candA).2) := by
  have h := claim10_failure_cached envBase st0 candA rfl rfl
  exact ⟨h.1, h.2 candA rfl⟩

/-- Counterexample to C10 as stated: after a failed individual
verification cached the UNCERTAIN/LOW record, a verification of the
same candidate routed through verify_batch issues a new oracle call,
returns a fresh (non-failure) record, and overwrites the cached
failure — so a fresh Validator is not the only way to retry. -/
theorem claim10_cx :
    (verify_single_company envC10 st0 candA).1 = failureRecord ∧
    cacheLookup (verify_single_company envC10 st0 candA).2.cache (singleKey candA)
      = some failureRecord ∧
    (verify_batch envC10 (verify_single_company envC10 st0 candA).2 [candA] 5).1
      = [verActive] ∧
    (verify_batch envC10 (verify_single_company envC10 st0 candA).2 [candA] 5).2.nBatch
      = (verify_single_company envC10 st0 candA).2.nBatch + 1 ∧
    cacheLookup
      (verify_batch envC10 (verify_single_company envC10 st0 candA).2 [candA] 5).2.cache
      (singleKey candA) = some verActive ∧
    verActive ≠ failureRecord := by
  with_unfolding_all decide

/-- Claim C4 (amended): for a candidate whose verification record has
status UNCERTAIN (after defaulting), the confidence rows apply only
when is_publicly_traded is not false: confidence LOW rejects with
status UNCERTAIN and the reason string used by the source, any other
confidence accepts with the needs-verification flag; when
is_publicly_traded is false the candidate is instead rejected by the
not-publicly-traded rule with the oracle-provided reason, regardless
of confidence. -/
theorem claim4_uncertain_policy (env : OracleEnv) (st : PState)
    (c : ComparableCompany) (v : Verification)
    (hb : env.batchO st.nBatch = .ok [v])
    (hs : v.status.getD "UNCERTAIN" = some "UNCERTAIN") :
    (v.is_publicly_traded ≠ some false → v.confidence.getD "LOW" = some "LOW" →
      (validate_companies env st [c]).1 =
        ([], [⟨c, some "UNCERTAIN",
          some "Could not confirm public trading status - manual verification required",
          none, none, some "LOW"⟩])) ∧
    (v.is_publicly_traded ≠ some false → v.confidence.getD "LOW" ≠ some "LOW" →
      (validate_companies env st [c]).1 =
        ([{ c with
            needs_verification := true
            verification_note := v.reason.getD "Status uncertain" }], [])) ∧
    (v.is_publicly_traded = some false →
      (validate_companies env st [c]).1 =
        ([], [⟨c, some "UNCERTAIN", v.reason.getD "No longer publicly traded",
          v.acquirer.getOpt, v.date_changed.getOpt, v.confidence.getD "LOW"⟩])) := by
  have hvers : (verify_batch env st [c] 5).1 = [v] := by
    simp [verify_batch, verifyBatchGo, hb]
  refine ⟨?_, ?_, ?_⟩
  · intro hp hconf
    simp only [validate_companies, hvers]
    simp [decideAll, decideOne, hs, hconf, hp]
  · intro hp hconf
    simp only [validate_companies, hvers]
    simp [decideAll, decideOne, hs, hconf, hp]
  · intro hp
    simp only [validate_companies, hvers]
    simp [decideAll, decideOne, hs, hp]

/-- Witness for C4: the LOW row at a concrete record. -/
theorem claim4_uncertain_policy_w :
    (validate_companies envC4a st0 [candA]).1 =
      ([], [⟨candA, some "UNCERTAIN",
        some "Could not confirm public trading status - manual verification required",
        none, none, some "LOW"⟩]) := by
  have h := (claim4_uncertain_policy envC4a st0 candA verUncLow rfl rfl).1
    (by with_unfolding_all decide) rfl
  exact h

/-- Counterexample to C4 as stated: a record with status UNCERTAIN and
confidence MEDIUM whose is_publicly_traded field is false is rejected
(with the oracle reason), while the claim says any UNCERTAIN record of
MEDIUM confidence is accepted with the needs-verification flag; and an
UNCERTAIN / LOW rejection carries the longer source reason string, not
the exact string named by the claim. -/
theorem claim4_cx :
    (validate_companies envC4b st0 [candA]).1 =
      ([], [⟨candA, some "UNCERTAIN", some "Could not verify listing",
        none, none, some "MEDIUM"⟩]) ∧
    (validate_companies envC4a st0 [candA]).1.2.map Rejection.reason =
      [some "Could not confirm public trading status - manual verification required"] ∧
    (some "Could not confirm public trading status - manual verification required"
      : Option String) ≠ some "manual verification required" := by
  with_unfolding_all decide

/-- Claim C6 (confirmed): a generation request entered at the default
attempt counter 1 makes at most three oracle calls in total; when all
three calls fail it returns the empty list after sleeping 2 then 4
seconds, and when the first two calls fail and the third parses to a
list it returns that list filtered by the target-name exclusion, after
the same two backoff sleeps.  The model returns a plain value for every
oracle behaviour, so no exception escapes generation. -/
theorem claim6_generation_retry (env : OracleEnv) (st : PState)
    (t : TargetCompany) (a : TargetAnalysis) (mc : Nat) (b : Bool) :
    (generate_candidate_comparables env st t a mc 1 b).2.nGen ≤ st.nGen + 3 ∧
    (env.genO st.nGen = .err → env.genO (st.nGen + 1) = .err →
      env.genO (st.nGen + 2) = .err →
      generate_candidate_comparables env st t a mc 1 b
        = ([], { st with
                 nGen := st.nGen + 3
                 delays := st.delays ++ [2, 4] })) ∧
    (∀ cs, env.genO st.nGen = .err → env.genO (st.nGen + 1) = .err →
      env.genO (st.nGen + 2) = .ok cs →
      generate_candidate_comparables env st t a mc 1 b
        = (cs.filter (fun c => !(strContains (lowerStr c.name) (lowerStr t.name))),
           { st with
             nGen := st.nGen + 3
             delays := st.delays ++ [2, 4] })) := by
  refine ⟨?_, ?_, ?_⟩
  · unfold generate_candidate_comparables generateGo
    rcases env.genO st.nGen with _ | _ | cs <;> simp
    · unfold generateGo
      rcases env.genO (st.nGen + 1) with _ | _ | cs <;> simp
      · unfold generateGo
        rcases env.genO (st.nGen + 1 + 1) with _ | _ | cs <;> simp
  · intro h0 h1 h2
    simp [generate_candidate_comparables, generateGo, h0, h1, h2, pow_succ, pow_one]
    norm_num
  · intro cs h0 h1 h2
    simp [generate_candidate_comparables, generateGo, h0, h1, h2, pow_succ, pow_one]
    norm_num

/-- Witness for C6: a concrete generation request that fails twice and
succeeds on the third call returns the candidate list after backoff
sleeps of 2 and 4 seconds and exactly three oracle calls. -/
theorem claim6_generation_retry_w :
    generate_candidate_comparables envC6 st0 ⟨"Tgt", "desc", "sic"⟩
      ⟨1/2, [], "other"⟩ 25 1 false
      = ([candA], { st0 with
                    nGen := 3
                    delays := [2, 4] }) := by
  have h := (claim6_generation_retry envC6 st0 ⟨"Tgt", "desc", "sic"⟩
    ⟨1/2, [], "other"⟩ 25 false).2.2 [candA] rfl rfl rfl
  rw [h]
  with_unfolding_all decide

/-- The threshold loop of the source computes the spec-side selection. -/
theorem applyThresholds_eq_specSelect (ts : List Rat)
    (scored : List ComparableCompany) (mr ma : Nat) :
    applyThresholds ts scored mr ma = specSelect ts scored mr ma := by
  induction ts with
  | nil => simp [applyThresholds, specSelect]
  | cons t rest ih =>
    by_cases h : mr ≤ (scored.filter (fun c => t ≤ scoreOf c)).length
    · simp [applyThresholds, specSelect, h]
    · simp only [applyThresholds, if_neg h, ih, specSelect, List.find?]
      simp [h]

/-- Membership in a stable descending insertion. -/
theorem mem_insertDesc {c d : ComparableCompany} {l : List ComparableCompany} :
    d ∈ insertDesc c l ↔ d = c ∨ d ∈ l := by
  induction l with
  | nil => simp [insertDesc]
  | cons e rest ih =>
    by_cases h : scoreOf e ≤ scoreOf c
    · simp [insertDesc, h]
    · simp only [insertDesc, if_neg h, List.mem_cons, ih]
      tauto

/-- Stable descending insertion preserves the descending pairwise
order. -/
theorem pairwise_insertDesc {c : ComparableCompany} {l : List ComparableCompany}
    (hl : l.Pairwise (fun a b => scoreOf b ≤ scoreOf a)) :
    (insertDesc c l).Pairwise (fun a b => scoreOf b ≤ scoreOf a) := by
  induction l with
  | nil => simp [insertDesc]
  | cons d rest ih =>
    rcases List.pairwise_cons.1 hl with ⟨hd, hrest⟩
    by_cases h : scoreOf d ≤ scoreOf c
    · rw [insertDesc, if_pos h]
      refine List.pairwise_cons.2 ⟨?_, hl⟩
      intro x hx
      rcases List.mem_cons.1 hx with rfl | hx
      · exact h
      · exact le_trans (hd x hx) h
    · rw [insertDesc, if_neg h]
      refine List.pairwise_cons.2 ⟨?_, ih hrest⟩
      intro x hx
      rcases mem_insertDesc.1 hx with rfl | hx
      · exact (not_le.1 h).le
      · exact hd x hx

/-- The ranked list of the pipeline is sorted in descending score
order. -/
theorem sorted_sortByScoreDesc (l : List ComparableCompany) :
    (sortByScoreDesc l).Pairwise (fun a b => scoreOf b ≤ scoreOf a) := by
  induction l with
  | nil => simp [sortByScoreDesc]
  | cons c rest ih => exact pairwise_insertDesc ih

/-- Claim C3 (confirmed): validate_and_rank_comparables selects with
the ladder [5,4,3] when the specialization level is at least 0.7 and
[4,3,2] otherwise, trying thresholds in descending order: the result is
the qualifying companies of the first threshold met by at least
min_required of them, truncated to max_allowed, and otherwise the
best-scoring companies truncated to max_allowed; the ranked list it
selects from is sorted descending by validation score. -/
theorem claim3_threshold_ladder (env : OracleEnv) (st : PState)
    (cands : List ComparableCompany) (a : TargetAnalysis) (temb : List Rat)
    (tdesc : String) (mr ma : Nat) :
    (validate_and_rank_comparables env st cands a temb tdesc mr ma).1.1
      = specSelect (if (7 : Rat)/10 ≤ a.specialization_level then [5, 4, 3] else [4, 3, 2])
          (rankedStage env st cands a temb tdesc).1.1 mr ma ∧
    ((rankedStage env st cands a temb tdesc).1.1).Pairwise
      (fun x y => scoreOf y ≤ scoreOf x) := by
  constructor
  · exact applyThresholds_eq_specSelect ..
  · exact sorted_sortByScoreDesc ..

/-- Every path of the threshold loop truncates to max_allowed. -/
theorem applyThresholds_length_le (ts : List Rat) (scored : List ComparableCompany)
    (mr ma : Nat) : (applyThresholds ts scored mr ma).length ≤ ma := by
  induction ts with
  | nil => simpa [applyThresholds] using List.length_take_le ..
  | cons t rest ih =>
    by_cases h : mr ≤ (scored.filter (fun c => t ≤ scoreOf c)).length
    · simpa [applyThresholds, h] using List.length_take_le ..
    · simpa [applyThresholds, h] using ih

/-- The attempt loop returns a list within the bound whenever the
incoming best does. -/
theorem findLoop_length_le (env : OracleEnv) (target : TargetCompany)
    (a : TargetAnalysis) (temb : List Rat) (mr mA : Nat) :
    ∀ (fuel attempt : Nat) (best : List ComparableCompany × List Rejection)
      (st : PState), best.1.length ≤ 10 →
      (findLoop env target a temb mr mA fuel attempt best st).1.1.length ≤ 10 := by
  intro fuel
  induction fuel with
  | zero => intro attempt best st h; simpa [findLoop] using h
  | succ f ih =>
    intro attempt best st h
    rw [findLoop]
    by_cases hg :
        (generate_candidate_comparables env st target a 25 attempt
          (decide (1 < attempt) && decide (best.1.length < mr))).1 = []
    · simp only [if_pos hg]
      exact ih (attempt + 1) best _ h
    · simp only [if_neg hg]
      by_cases hs :
          mr ≤ (validate_and_rank_comparables env
            (generate_candidate_comparables env st target a 25 attempt
              (decide (1 < attempt) && decide (best.1.length < mr))).2
            (generate_candidate_comparables env st target a 25 attempt
              (decide (1 < attempt) && decide (best.1.length < mr))).1
            a temb target.description mr 10).1.1.length
      · simp only [if_pos hs]
        exact applyThresholds_length_le ..
      · simp only [if_neg hs]
        refine ih (attempt + 1) _ _ ?_
        split
        · exact applyThresholds_length_le ..
        · exact h

/-- Claim C7 (confirmed): validate_and_rank_comparables returns at most
max_allowed comparables on every path (threshold met or fallback), and
find_comparables returns at most 10 comparables (the max_allowed it
passes) on every path, success or best-effort. -/
theorem claim7_result_bounded :
    (∀ env st cands a temb tdesc mr ma,
      (validate_and_rank_comparables env st cands a temb tdesc mr ma).1.1.length ≤ ma) ∧
    (∀ env target mr mA,
      (find_comparables env target mr mA).1.1.length ≤ 10) := by
  constructor
  · intro env st cands a temb tdesc mr ma
    exact applyThresholds_length_le ..
  · intro env target mr mA
    exact findLoop_length_le env target _ _ mr mA mA 1 ([], []) _ (by simp)

/-- Every candidate returned by the generation retry loop passes the
target-name exclusion filter. -/
theorem generateGo_nameOk (env : OracleEnv) (target : TargetCompany)
    (a : TargetAnalysis) (mc : Nat) (b : Bool) :
    ∀ (fuel attempt : Nat) (st : PState) (c : ComparableCompany),
      c ∈ (generateGo env target a mc b fuel attempt st).1 → nameOk target c := by
  intro fuel
  induction fuel with
  | zero =>
    intro attempt st c hc
    rw [generateGo] at hc
    rcases ho : env.genO st.nGen with _ | _ | cs <;> rw [ho] at hc <;> simp at hc
    exact hc.2
  | succ f ih =>
    intro attempt st c hc
    rw [generateGo] at hc
    rcases ho : env.genO st.nGen with _ | _ | cs <;> rw [ho] at hc
    · exact ih (attempt + 1) _ c hc
    · simp at hc
    · simp at hc
      exact hc.2

/-- Membership in the sorted list implies membership in the input. -/
theorem mem_of_mem_sortByScoreDesc {c : ComparableCompany}
    {l : List ComparableCompany} (h : c ∈ sortByScoreDesc l) : c ∈ l := by
  induction l with
  | nil => simpa [sortByScoreDesc] using h
  | cons d rest ih =>
    rw [sortByScoreDesc] at h
    rcases mem_insertDesc.1 h with rfl | h
    · exact List.mem_cons_self ..
    · exact List.mem_cons_of_mem _ (ih h)

/-- Membership in the threshold selection implies membership in the
ranked list. -/
theorem mem_of_mem_applyThresholds {c : ComparableCompany} {ts : List Rat}
    {scored : List ComparableCompany} {mr ma : Nat}
    (h : c ∈ applyThresholds ts scored mr ma) : c ∈ scored := by
  induction ts with
  | nil => exact List.mem_of_mem_take (by simpa [applyThresholds] using h)
  | cons t rest ih =>
    rw [applyThresholds] at h
    split at h
    · exact (List.mem_filter.1 (List.mem_of_mem_take h)).1
    · exact ih h

/-- The accepted side of the per-candidate decision keeps the company
name. -/
theorem decideOne_inl_name {c c' : ComparableCompany} {v : Verification}
    (h : decideOne c v = .inl c') : c'.name = c.name := by
  rw [decideOne] at h
  split at h
  · split at h <;> simpa using congrArg (fun x => Sum.elim (fun y => y.name) (fun _ => c.name) x) h.symm
  · split at h
    · simp at h
    · split at h
      · simp at h
      · simpa using congrArg (fun x => Sum.elim (fun y => y.name) (fun _ => c.name) x) h.symm

/-- Every company accepted by the decision loop has the name of one of
the zipped candidates. -/
theorem decideAll_names {c' : ComparableCompany} :
    ∀ {pairs : List (ComparableCompany × Verification)},
      c' ∈ (decideAll pairs).1 → ∃ p ∈ pairs, c'.name = p.1.name := by
  intro pairs
  induction pairs with
  | nil => intro h; simp [decideAll] at h
  | cons p rest ih =>
    intro h
    rw [decideAll] at h
    rcases hd : decideOne p.1 p.2 with c2 | r <;> rw [hd] at h <;> simp only at h
    · rcases List.mem_cons.1 h with rfl | h
      · exact ⟨p, List.mem_cons_self .., decideOne_inl_name hd⟩
      · rcases ih h with ⟨q, hq, hname⟩
        exact ⟨q, List.mem_cons_of_mem _ hq, hname⟩
    · rcases ih h with ⟨q, hq, hname⟩
      exact ⟨q, List.mem_cons_of_mem _ hq, hname⟩

/-- Companies surviving the data filter are among the candidates. -/
theorem dataStage_mem {c : ComparableCompany} :
    ∀ {l : List ComparableCompany}, c ∈ (dataStage l).1 → c ∈ l := by
  intro l
  induction l with
  | nil => intro h; simp [dataStage] at h
  | cons d rest ih =>
    intro h
    rw [dataStage] at h
    split at h
    · exact List.mem_cons_of_mem _ (ih h)
    · split at h
      · exact List.mem_cons_of_mem _ (ih h)
      · rcases List.mem_cons.1 h with rfl | h
        · exact List.mem_cons_self ..
        · exact List.mem_cons_of_mem _ (ih h)

/-- The normalization stage preserves company names. -/
theorem normStage_names (env : OracleEnv) (a : TargetAnalysis)
    {c' : ComparableCompany} :
    ∀ {l : List ComparableCompany} {st : PState},
      c' ∈ (normStage env st a l).1 → ∃ c ∈ l, c'.name = c.name := by
  intro l
  induction l with
  | nil => intro st h; simp [normStage] at h
  | cons d rest ih =>
    intro st h
    rw [normStage] at h
    rcases List.mem_cons.1 h with he | h
    · refine ⟨d, List.mem_cons_self .., ?_⟩
      rw [he]
      rcases hn : d.normalized_description with _ | s <;> simp [hn]
    · rcases ih h with ⟨q, hq, hname⟩
      exact ⟨q, List.mem_cons_of_mem _ hq, hname⟩

/-- The scoring stage preserves company names. -/
theorem scoreStage_names (env : OracleEnv) (a : TargetAnalysis) (temb : List Rat)
    (tdesc : String) {c' : ComparableCompany} :
    ∀ {l : List ComparableCompany} {st : PState},
      c' ∈ (scoreStage env st a temb tdesc l).1 → ∃ c ∈ l, c'.name = c.name := by
  intro l
  induction l with
  | nil => intro st h; simp [scoreStage] at h
  | cons d rest ih =>
    intro st h
    rw [scoreStage] at h
    rcases List.mem_cons.1 h with he | h
    · exact ⟨d, List.mem_cons_self .., by rw [he]⟩
    · rcases ih h with ⟨q, hq, hname⟩
      exact ⟨q, List.mem_cons_of_mem _ hq, hname⟩

/-- Every company accepted by validate_companies carries the name of
one of the input companies. -/
theorem validate_companies_names (env : OracleEnv) (st : PState)
    {l : List ComparableCompany} {c' : ComparableCompany}
    (h : c' ∈ (validate_companies env st l).1.1) : ∃ c ∈ l, c'.name = c.name := by
  rw [validate_companies] at h
  split at h
  · simp at h
  · rcases decideAll_names h with ⟨p, hp, hname⟩
    exact ⟨p.1, (List.of_mem_zip hp).1, hname⟩

/-- Every comparable returned by validate_and_rank_comparables carries
the name of one of the input candidates. -/
theorem validate_and_rank_names (env : OracleEnv) (st : PState)
    (cands : List ComparableCompany) (a : TargetAnalysis) (temb : List Rat)
    (tdesc : String) (mr ma : Nat) {c' : ComparableCompany}
    (h : c' ∈ (validate_and_rank_comparables env st cands a temb tdesc mr ma).1.1) :
    ∃ c ∈ cands, c'.name = c.name := by
  have h1 : c' ∈ (rankedStage env st cands a temb tdesc).1.1 :=
    mem_of_mem_applyThresholds h
  have h2 := mem_of_mem_sortByScoreDesc h1
  rcases scoreStage_names env a temb tdesc h2 with ⟨c2, hc2, hn2⟩
  rcases normStage_names env a hc2 with ⟨c3, hc3, hn3⟩
  rcases validate_companies_names env st hc3 with ⟨c4, hc4, hn4⟩
  exact ⟨c4, dataStage_mem hc4, by rw [hn2, hn3, hn4]⟩

/-- The attempt loop preserves the name-exclusion property. -/
theorem findLoop_nameOk (env : OracleEnv) (target : TargetCompany)
    (a : TargetAnalysis) (temb : List Rat) (mr mA : Nat) :
    ∀ (fuel attempt : Nat) (best : List ComparableCompany × List Rejection)
      (st : PState), (∀ c ∈ best.1, nameOk target c) →
      ∀ c ∈ (findLoop env target a temb mr mA fuel attempt best st).1.1,
        nameOk target c := by
  intro fuel
  induction fuel with
  | zero => intro attempt best st hbest c hc; exact hbest c (by simpa [findLoop] using hc)
  | succ f ih =>
    intro attempt best st hbest c hc
    simp only [findLoop] at hc
    by_cases hg :
        (generate_candidate_comparables env st target a 25 attempt
          (decide (1 < attempt) && decide (best.1.length < mr))).1 = []
    · rw [if_pos hg] at hc
      exact ih (attempt + 1) best _ hbest c hc
    · rw [if_neg hg] at hc
      split at hc
      · rcases validate_and_rank_names env _ _ a temb target.description mr 10 hc
          with ⟨c0, hc0, hname⟩
        have hok := generateGo_nameOk env target a 25
          (decide (1 < attempt) && decide (best.1.length < mr)) (3 - attempt) attempt st c0 hc0
        simpa [nameOk, hname] using hok
      · refine ih (attempt + 1) _ _ ?_ c hc
        intro d hd
        split at hd
        · rcases validate_and_rank_names env _ _ a temb target.description mr 10 hd
            with ⟨c0, hc0, hname⟩
          have hok := generateGo_nameOk env target a 25
            (decide (1 < attempt) && decide (best.1.length < mr)) (3 - attempt) attempt st c0 hc0
          simpa [nameOk, hname] using hok
        · exact hbest d hd

/-- Claim C8 (confirmed): the name of the target never occurs as a
case-insensitive substring of the name of any comparable returned by
find_comparables; candidates violating this are dropped by the
generation post-filter and every later stage preserves names. -/
theorem claim8_target_name_excluded (env : OracleEnv) (target : TargetCompany)
    (mr mA : Nat) (c : ComparableCompany)
    (hc : c ∈ (find_comparables env target mr mA).1.1) :
    strContains (lowerStr c.name) (lowerStr target.name) = false := by
  exact findLoop_nameOk env target _ _ mr mA mA 1 ([], []) _ (by simp) c hc

set_option maxRecDepth 2000 in
/-- Witness for C8: the comparable returned by a concrete search does
not contain the target name. -/
theorem claim8_target_name_excluded_w :
    strContains (lowerStr compC8.name) (lowerStr (⟨"Tgt", "desc", "sic"⟩ :
      TargetCompany).name) = false :=
  claim8_target_name_excluded envC8 ⟨"Tgt", "desc", "sic"⟩ 1 3 compC8
    (by with_unfolding_all decide)

/-- The instrumented loop projects to the source loop. -/
theorem findLoopT_proj (env : OracleEnv) (target : TargetCompany)
    (analysis : TargetAnalysis) (temb : List Rat) (mr mA : Nat) :
    ∀ (fuel attempt : Nat) (best : List ComparableCompany × List Rejection)
      (st : PState),
      (findLoopT env target analysis temb mr mA fuel attempt best st).2
        = findLoop env target analysis temb mr mA fuel attempt best st := by
  intro fuel
  induction fuel with
  | zero => intro attempt best st; rfl
  | succ f ih =>
    intro attempt best st
    simp only [findLoopT, findLoop]
    by_cases hg :
        (generate_candidate_comparables env st target analysis 25 attempt
          (decide (1 < attempt) && decide (best.1.length < mr))).1 = []
    · rw [if_pos hg, if_pos hg, ih]
    · rw [if_neg hg, if_neg hg]
      by_cases hs :
          mr ≤ (validate_and_rank_comparables env
            (generate_candidate_comparables env st target analysis 25 attempt
              (decide (1 < attempt) && decide (best.1.length < mr))).2
            (generate_candidate_comparables env st target analysis 25 attempt
              (decide (1 < attempt) && decide (best.1.length < mr))).1
            analysis temb target.description mr 10).1.1.length
      · rw [if_pos hs, if_pos hs]
      · rw [if_neg hs, if_neg hs]
        exact ih ..

/-- The result of the instrumented loop is the spec-side selection over
its own trace. -/
theorem findLoopT_choose (env : OracleEnv) (target : TargetCompany)
    (analysis : TargetAnalysis) (temb : List Rat) (mr mA : Nat) :
    ∀ (fuel attempt : Nat) (best : List ComparableCompany × List Rejection)
      (st : PState),
      (findLoopT env target analysis temb mr mA fuel attempt best st).2.1
        = chooseAttempt mr best
            (findLoopT env target analysis temb mr mA fuel attempt best st).1 := by
  intro fuel
  induction fuel with
  | zero => intro attempt best st; rfl
  | succ f ih =>
    intro attempt best st
    simp only [findLoopT]
    by_cases hg :
        (generate_candidate_comparables env st target analysis 25 attempt
          (decide (1 < attempt) && decide (best.1.length < mr))).1 = []
    · rw [if_pos hg]
      exact ih ..
    · rw [if_neg hg]
      by_cases hs :
          mr ≤ (validate_and_rank_comparables env
            (generate_candidate_comparables env st target analysis 25 attempt
              (decide (1 < attempt) && decide (best.1.length < mr))).2
            (generate_candidate_comparables env st target analysis 25 attempt
              (decide (1 < attempt) && decide (best.1.length < mr))).1
            analysis temb target.description mr 10).1.1.length
      · rw [if_pos hs]
        simp [chooseAttempt, hs]
      · rw [if_neg hs]
        simp only [chooseAttempt, if_neg hs]
        exact ih ..

/-- Claim C2 (amended): the comparables and the rejected_companies list
of the returned metadata are, together, the outcome of the single
attempt selected from the per-attempt trace: the first attempt reaching
min_required, or else the retained best attempt (first strict
improvement); rejections of the other attempts are discarded. -/
theorem claim2_rejections_single_attempt (env : OracleEnv) (target : TargetCompany)
    (mr mA : Nat) :
    ((find_comparables env target mr mA).1.1,
     (find_comparables env target mr mA).1.2.rejected_companies)
      = chooseAttempt mr ([], []) (findTrace env target mr mA) := by
  have h := findLoopT_choose env target (findSetup env target).1.1
    (findSetup env target).1.2 mr mA mA 1 ([], []) (findSetup env target).2
  rw [findLoopT_proj] at h
  exact h

set_option maxRecDepth 2000 in
/-- Counterexample to C2 as stated: in a concrete search, attempt 1
records a DATA_INVALID rejection (first conjunct replays that attempt's
validate-and-rank call at its exact pipeline state), attempt 2 succeeds
with no rejections, and the returned metadata's rejected_companies is
empty — the attempt-1 rejection has been discarded rather than
accumulated. -/
theorem claim2_cx :
    (validate_and_rank_comparables envC2 stC2attempt1 [candBad] ⟨1/2, [], "other"⟩
      [] "desc" 1 10).1.2
      = [⟨candBad, some "DATA_INVALID", some "Incomplete data", none, none, none⟩] ∧
    (find_comparables envC2 ⟨"Tgt", "desc", "sic"⟩ 1 3).1.2.rejected_companies = [] := by
  with_unfolding_all decide

/-- A fold of products over pairs of zeros leaves the accumulator
unchanged. -/
theorem foldl_replicate_zero_pair (n : Nat) :
    ∀ acc : Rat,
      (List.replicate n ((0 : Rat), (0 : Rat))).foldl (fun s p => s + p.1 * p.2) acc
        = acc := by
  induction n with
  | zero => intro acc; rfl
  | succ k ih =>
    intro acc
    rw [List.replicate_succ, List.foldl_cons]
    simpa using ih acc

/-- The squared norm of a zero vector is zero. -/
theorem sumSq_replicate_zero (n : Nat) :
    sumSq (List.replicate n (0 : Rat)) = 0 := by
  have hz : (List.replicate n (0 : Rat)).zip (List.replicate n (0 : Rat))
      = List.replicate n ((0 : Rat), (0 : Rat)) := by
    induction n with
    | zero => rfl
    | succ k ih => simp [List.replicate_succ, ih]
  rw [sumSq, dotList, hz]
  exact foldl_replicate_zero_pair n 0

/-- A SqrtLike function sends zero to zero. -/
theorem sqrtLike_zero {f : Rat → Rat} (hf : SqrtLike f) : f 0 = 0 := by
  have h1 : 0 ≤ f 0 := hf.1 0 le_rfl
  have h2 : ¬ 0 < f 0 := fun h => lt_irrefl 0 ((hf.2 0 le_rfl).1 h)
  exact le_antisymm (not_lt.1 h2) h1

/-- Cosine similarity against a zero vector is the guarded 0.0 of the
source. -/
theorem cosine_similarity_zero_right {f : Rat → Rat} (hf : SqrtLike f)
    (a : List Rat) (n : Nat) :
    cosine_similarity f a (List.replicate n (0 : Rat)) = 0 := by
  rw [cosine_similarity, sumSq_replicate_zero, sqrtLike_zero hf, mul_zero]
  simp

/-- When the embedding call and the business-model call both fail, the
score of a comparable is base 1 plus a zero semantic term, plus the
focus overlap weighted 3/2, plus the neutral 1/2 business-model default
weighted 3/4, minus the penalties; both failures are absorbed per call
and scoring returns normally. -/
theorem score_comparable_err_eq (env : OracleEnv) (st : PState)
    (c : ComparableCompany) (a : TargetAnalysis) (temb : List Rat) (tdesc : String)
    (hs : SqrtLike env.rsqrt)
    (he : env.embedO st.nEmbed = .err)
    (hm : env.modelO st.nModel = .err) :
    score_comparable env st c a temb tdesc
      = (round3 (1 + 0 * (3 + a.specialization_level * 2)
            + focusOverlap a c * (3/2) + (1/2) * (3/4)
            - (if caveatTruthy c then 1/2 else 0)
            - (if c.needs_verification then 1/4 else 0)),
         { st with
           nEmbed := st.nEmbed + 1
           nModel := st.nModel + 1 }) := by
  simp only [score_comparable, embed_texts, assess_business_model_match, he, hm,
    List.map, List.head?, focusOverlap]
  rw [cosine_similarity_zero_right hs]
  by_cases hfa : a.core_focus_areas = []
  · simp only [hfa, if_pos, reduceIte]
    by_cases hcv : caveatTruthy c = true <;>
      by_cases hnv : c.needs_verification = true <;>
        simp [hcv, hnv]
  · simp only [hfa, reduceIte]
    by_cases hcv : caveatTruthy c = true <;>
      by_cases hnv : c.needs_verification = true <;>
        simp [hcv, hnv]

/-- The identity function satisfies the SqrtLike interface, so the
square-root hypotheses of this development are satisfiable. -/
theorem sqrtLike_id : SqrtLike id :=
  ⟨fun _ h => h, fun _ _ => Iff.rfl⟩

/-- Claim C5 (amended): oracle failures during scoring are caught per
call.  A failing embedding call makes embed_texts return zero vectors,
whose cosine similarity is the guarded 0 — so the semantic term
contributes 0, not 0.5; a failing business-model call defaults to a 1/2
match score weighted 3/4; scoring completes normally, so one failing
call does not abort the batch. -/
theorem claim5_failure_neutral_defaults (env : OracleEnv) (st : PState)
    (c : ComparableCompany) (a : TargetAnalysis) (temb : List Rat) (tdesc : String)
    (hs : SqrtLike env.rsqrt)
    (he : env.embedO st.nEmbed = .err)
    (hm : env.modelO st.nModel = .err) :
    embed_texts env st [c.normalized_description.getD c.business_activity]
      = ([List.replicate 1536 (0 : Rat)], { st with nEmbed := st.nEmbed + 1 }) ∧
    cosine_similarity env.rsqrt temb (List.replicate 1536 (0 : Rat)) = 0 ∧
    score_comparable env st c a temb tdesc
      = (round3 (1 + 0 * (3 + a.specialization_level * 2)
            + focusOverlap a c * (3/2) + (1/2) * (3/4)
            - (if caveatTruthy c then 1/2 else 0)
            - (if c.needs_verification then 1/4 else 0)),
         { st with
           nEmbed := st.nEmbed + 1
           nModel := st.nModel + 1 }) := by
  refine ⟨?_, cosine_similarity_zero_right hs temb 1536,
    score_comparable_err_eq env st c a temb tdesc hs he hm⟩
  simp only [embed_texts, he, List.map_cons, List.map_nil]

/-- Witness for C5: the failure defaults at a concrete scoring call. -/
theorem claim5_failure_neutral_defaults_w :
    embed_texts envC5 st0
        [(candA.normalized_description.getD candA.business_activity)]
      = ([List.replicate 1536 (0 : Rat)], { st0 with nEmbed := 1 }) ∧
    cosine_similarity envC5.rsqrt [] (List.replicate 1536 (0 : Rat)) = 0 ∧
    score_comparable envC5 st0 candA ⟨1/2, [], "other"⟩ [] "desc"
      = (round3 (1 + 0 * (3 + (1/2 : Rat) * 2)
            + focusOverlap ⟨1/2, [], "other"⟩ candA * (3/2) + (1/2) * (3/4)
            - (if caveatTruthy candA then 1/2 else 0)
            - (if candA.needs_verification then 1/4 else 0)),
         { st0 with
           nEmbed := 1
           nModel := 1 }) :=
  claim5_failure_neutral_defaults envC5 st0 candA ⟨1/2, [], "other"⟩ [] "desc"
    sqrtLike_id rfl rfl

/-- Counterexample to C5 as stated: at a concrete comparable whose
embedding call fails (no focus areas, no penalties, business-model call
also failing), the computed score is 11/8, i.e. the semantic term is 0;
had the failure been mapped to a similarity of 0.5 as the claim states,
the score would have been 27/8. -/
theorem claim5_cx :
    (score_comparable envC5 st0 candA ⟨1/2, [], "other"⟩ [] "desc").1 = 11/8 ∧
    round3 (1 + (1/2) * (3 + (1/2 : Rat) * 2) + (1/2) * (3/4)) = 27/8 ∧
    (11/8 : Rat) ≠ 27/8 := by
  refine ⟨?_, ?_, by norm_num⟩
  · rw [score_comparable_err_eq envC5 st0 candA ⟨1/2, [], "other"⟩ [] "desc"
      sqrtLike_id rfl rfl]
    norm_num [focusOverlap, caveatTruthy, candA, mkCand, round3]
  · norm_num [round3]

/-- dict.get with a nonempty default on a well-formed field yields a
nonempty string. -/
theorem wfField_getD {j : JStr} (h : wfField j) {d : String} (hd : d ≠ "") :
    ∃ s, j.getD d = some s ∧ s ≠ "" := by
  rcases j with _ | _ | s
  · exact ⟨d, rfl, hd⟩
  · exact absurd rfl h.1
  · exact ⟨s, rfl, fun he => h.2 (by rw [he])⟩

/-- The setdefault pass preserves well-formedness. -/
theorem applyDefaults_wf {r : Verification} (h : WFVer r) : WFVer (applyDefaults r) := by
  refine ⟨⟨?_, ?_⟩, h.2⟩ <;> rcases hs : r.status with _ | _ | s
  · simp [applyDefaults, JStr.setD, hs]
  · exact absurd hs h.1.1
  · simpa [applyDefaults, JStr.setD, hs] using fun he => h.1.2 (hs.trans (by rw [he]))
  · simp [applyDefaults, JStr.setD, hs]
  · exact absurd hs h.1.1
  · simpa [applyDefaults, JStr.setD, hs] using fun he => h.1.2 (hs.trans (by rw [he]))

/-- The failure record is well-formed. -/
theorem failureRecord_wf : WFVer failureRecord := by
  refine ⟨⟨?_, ?_⟩, ⟨?_, ?_⟩⟩ <;> decide

/-- Lookup after an insert: the inserted key wins, other keys see the
old cache. -/
theorem cacheLookup_insert (cache : List (String × Verification)) (k k' : String)
    (v : Verification) :
    cacheLookup (cacheInsert cache k v) k'
      = if k = k' then some v else cacheLookup cache k' := by
  by_cases h : k = k'
  · simp [cacheLookup, cacheInsert, List.find?, h]
  · simp only [cacheLookup, cacheInsert, List.find?]
    rw [show ((k, v).1 == k') = false by simpa using h]
    simp [cacheLookup, h]

/-- Inserting a well-formed record preserves cache well-formedness. -/
theorem cacheWF_insert {cache : List (String × Verification)} (h : cacheWF cache)
    {k : String} {v : Verification} (hv : WFVer v) :
    cacheWF (cacheInsert cache k v) := by
  intro k' v' h'
  rw [cacheLookup_insert] at h'
  split at h'
  · cases h'; exact hv
  · exact h k' v' h'

/-- verify_single_company returns a well-formed record and preserves
cache well-formedness, for a well-formed environment. -/
theorem verify_single_company_wf {env : OracleEnv} (he : EnvWF env) {st : PState}
    (hc : cacheWF st.cache) (c : ComparableCompany) :
    WFVer (verify_single_company env st c).1 ∧
    cacheWF (verify_single_company env st c).2.cache := by
  rw [verify_single_company]
  rcases hl : cacheLookup st.cache (singleKey c) with _ | v
  · rcases ho : env.singleO st.nSingle with _ | _ | r
    · exact ⟨failureRecord_wf, cacheWF_insert hc failureRecord_wf⟩
    · exact ⟨failureRecord_wf, cacheWF_insert hc failureRecord_wf⟩
    · have hr := applyDefaults_wf (he.2 st.nSingle r ho)
      exact ⟨hr, cacheWF_insert hc hr⟩
  · exact ⟨hc _ _ hl, hc⟩

/-- The per-item fallback returns well-formed records and preserves
cache well-formedness. -/
theorem fallbackAll_wf {env : OracleEnv} (he : EnvWF env) :
    ∀ (l : List ComparableCompany) (st : PState), cacheWF st.cache →
      (∀ v ∈ (fallbackAll env st l).1, WFVer v) ∧
      cacheWF (fallbackAll env st l).2.cache := by
  intro l
  induction l with
  | nil => intro st hc; exact ⟨by simp [fallbackAll], hc⟩
  | cons c rest ih =>
    intro st hc
    have h1 := verify_single_company_wf he hc c
    have h2 := ih (verify_single_company env st c).2 h1.2
    refine ⟨?_, h2.2⟩
    intro v hv
    rw [fallbackAll] at hv
    rcases List.mem_cons.1 hv with rfl | hv
    · exact h1.1
    · exact h2.1 v hv

/-- Caching a list of well-formed records preserves cache
well-formedness. -/
theorem writeAll_wf :
    ∀ (pairs : List (ComparableCompany × Verification))
      (cache : List (String × Verification)), cacheWF cache →
      (∀ p ∈ pairs, WFVer p.2) → cacheWF (writeAll cache pairs) := by
  intro pairs
  induction pairs with
  | nil => intro cache hc _; exact hc
  | cons p rest ih =>
    intro cache hc hp
    rcases p with ⟨c, v⟩
    rw [writeAll]
    exact ih _ (cacheWF_insert hc (hp ⟨c, v⟩ (List.mem_cons_self ..)))
      (fun q hq => hp q (List.mem_cons_of_mem _ hq))

/-- The batch loop returns well-formed records and preserves cache
well-formedness. -/
theorem verifyBatchGo_wf {env : OracleEnv} (he : EnvWF env) (bs : Nat) :
    ∀ (fuel : Nat) (companies : List ComparableCompany) (st : PState),
      cacheWF st.cache →
      (∀ v ∈ (verifyBatchGo env bs fuel companies st).1, WFVer v) ∧
      cacheWF (verifyBatchGo env bs fuel companies st).2.cache := by
  intro fuel
  induction fuel with
  | zero =>
    intro companies st hc
    exact ⟨by simp [verifyBatchGo], by simpa [verifyBatchGo] using hc⟩
  | succ f ih =>
    intro companies st hc
    rcases companies with _ | ⟨c, cs⟩
    · exact ⟨by simp [verifyBatchGo], by simpa [verifyBatchGo] using hc⟩
    · have step :
          ∀ p : List Verification × PState,
            (∀ v ∈ p.1, WFVer v) → cacheWF p.2.cache →
            (∀ v ∈ (p.1 ++ (verifyBatchGo env bs f ((c :: cs).drop bs)
                (if ((c :: cs).drop bs).isEmpty = true then p.2
                 else { p.2 with delays := p.2.delays ++ [(1 : Rat)/2] })).1),
              WFVer v) ∧
            cacheWF (verifyBatchGo env bs f ((c :: cs).drop bs)
                (if ((c :: cs).drop bs).isEmpty = true then p.2
                 else { p.2 with delays := p.2.delays ++ [(1 : Rat)/2] })).2.cache := by
        intro p hp hpc
        have hmid : cacheWF (if ((c :: cs).drop bs).isEmpty = true then p.2
            else { p.2 with delays := p.2.delays ++ [(1 : Rat)/2] }).cache := by
          split <;> exact hpc
        have h2 := ih ((c :: cs).drop bs) _ hmid
        refine ⟨?_, h2.2⟩
        intro v hv
        rcases List.mem_append.1 hv with hv | hv
        · exact hp v hv
        · exact h2.1 v hv
      simp only [verifyBatchGo]
      rcases ho : env.batchO st.nBatch with _ | vs
      · simp only
        have hfb := fallbackAll_wf he ((c :: cs).take bs)
          { st with nBatch := st.nBatch + 1 } (by simpa using hc)
        exact step _ hfb.1 hfb.2
      · simp only
        split
        · have hvs : ∀ v ∈ vs, WFVer v := he.1 st.nBatch vs ho
          refine step _ hvs ?_
          exact writeAll_wf _ _ (by simpa using hc)
            (fun q hq => hvs q.2 (List.of_mem_zip hq).2)
        · have hfb := fallbackAll_wf he ((c :: cs).take bs)
            { st with nBatch := st.nBatch + 1 } (by simpa using hc)
          exact step _ hfb.1 hfb.2

/-- A rejection produced by the per-candidate decision from a
well-formed verification record is well-formed. -/
theorem decideOne_inr_wf {c : ComparableCompany} {v : Verification} {r : Rejection}
    (hv : WFVer v) (h : decideOne c v = .inr r) : RejWF r := by
  rw [decideOne] at h
  split at h
  · split at h <;> simp at h
  · split at h
    · injection h with h2
      subst h2
      rcases wfField_getD hv.1 (d := "UNCERTAIN") (by decide) with ⟨s1, hs1, hn1⟩
      rcases wfField_getD hv.2 (d := "No longer publicly traded") (by decide)
        with ⟨s2, hs2, hn2⟩
      exact ⟨⟨s1, hs1, hn1⟩, ⟨s2, hs2, hn2⟩⟩
    · split at h
      · injection h with h2
        subst h2
        exact ⟨⟨"UNCERTAIN", rfl, by decide⟩,
          ⟨"Could not confirm public trading status - manual verification required",
           rfl, by decide⟩⟩
      · simp at h

/-- Rejections of the decision loop over well-formed records are
well-formed. -/
theorem decideAll_rej_wf :
    ∀ {pairs : List (ComparableCompany × Verification)},
      (∀ p ∈ pairs, WFVer p.2) →
      ∀ r ∈ (decideAll pairs).2, RejWF r := by
  intro pairs
  induction pairs with
  | nil => intro _ r hr; simp [decideAll] at hr
  | cons p rest ih =>
    intro hp r hr
    rw [decideAll] at hr
    rcases hd : decideOne p.1 p.2 with c2 | r2 <;> rw [hd] at hr <;> simp only at hr
    · exact ih (fun q hq => hp q (List.mem_cons_of_mem _ hq)) r hr
    · rcases List.mem_cons.1 hr with rfl | hr
      · exact decideOne_inr_wf (hp p (List.mem_cons_self ..)) hd
      · exact ih (fun q hq => hp q (List.mem_cons_of_mem _ hq)) r hr

/-- Rejections of validate_companies are well-formed, and the cache
stays well-formed. -/
theorem validate_companies_wf {env : OracleEnv} (he : EnvWF env) {st : PState}
    (hc : cacheWF st.cache) (l : List ComparableCompany) :
    (∀ r ∈ (validate_companies env st l).1.2, RejWF r) ∧
    cacheWF (validate_companies env st l).2.cache := by
  rw [validate_companies]
  split
  · exact ⟨by simp, hc⟩
  · have hb := verifyBatchGo_wf he 5 l.length l st hc
    refine ⟨?_, hb.2⟩
    intro r hr
    exact decideAll_rej_wf (fun p hp => hb.1 p.2 (List.of_mem_zip hp).2) r hr

/-- A structural rejection reason is one of the fixed nonempty
strings. -/
theorem is_operating_company_basic_reason {c : ComparableCompany}
    {reason : Option String}
    (h : is_operating_company_basic c = (false, reason)) :
    ∃ s, reason = some s ∧ s ≠ "" := by
  rw [is_operating_company_basic] at h
  rcases hf : structuralNonOperating.find?
      (fun p => strContains (lowerStr (c.business_activity ++ " " ++ c.name)) p.1)
    with _ | p
  · rw [hf] at h; simp at h
  · rw [hf] at h
    have hmem := List.mem_of_find?_eq_some hf
    have hr : reason = some p.2 := by cases h; rfl
    fin_cases hmem <;> exact ⟨_, hr, by decide⟩

/-- Rejections of the data-completeness and entity filters are
well-formed. -/
theorem dataStage_rej_wf :
    ∀ {l : List ComparableCompany}, ∀ r ∈ (dataStage l).2, RejWF r := by
  intro l
  induction l with
  | nil => intro r hr; simp [dataStage] at hr
  | cons c rest ih =>
    intro r hr
    rw [dataStage] at hr
    split at hr
    · rcases List.mem_cons.1 hr with rfl | hr
      · exact ⟨⟨"DATA_INVALID", rfl, by decide⟩, ⟨"Incomplete data", rfl, by decide⟩⟩
      · exact ih r hr
    · rcases hop : is_operating_company_basic c with ⟨b, reason⟩
      rw [hop] at hr
      rcases b
      · simp only at hr
        rcases List.mem_cons.1 hr with rfl | hr
        · rcases is_operating_company_basic_reason hop with ⟨s, hs, hn⟩
          exact ⟨⟨"NON_OPERATING", rfl, by decide⟩, ⟨s, hs, hn⟩⟩
        · exact ih r hr
      · simp only at hr
        exact ih r hr

/-- The normalization stage never touches the cache. -/
theorem normStage_cache (env : OracleEnv) (a : TargetAnalysis) :
    ∀ (l : List ComparableCompany) (st : PState),
      (normStage env st a l).2.cache = st.cache := by
  intro l
  induction l with
  | nil => intro st; rfl
  | cons c rest ih =>
    intro st
    rw [normStage]
    rw [ih]
    rcases c.normalized_description with _ | s
    · rcases h : env.normO st.nNorm with _ | s2 <;>
        simp [normalize_for_comparability, h]
    · rfl

/-- The embedding call never touches the cache. -/
theorem embed_texts_cache (env : OracleEnv) (st : PState) (ts : List String) :
    (embed_texts env st ts).2.cache = st.cache := by
  rcases h : env.embedO st.nEmbed <;> simp only [embed_texts, h]

/-- The business-model call never touches the cache. -/
theorem assess_cache (env : OracleEnv) (st : PState) :
    (assess_business_model_match env st).2.cache = st.cache := by
  rcases h : env.modelO st.nModel <;> simp [assess_business_model_match, h]

/-- Scoring one comparable never touches the cache. -/
theorem score_comparable_cache (env : OracleEnv) (st : PState)
    (c : ComparableCompany) (a : TargetAnalysis) (temb : List Rat) (tdesc : String) :
    (score_comparable env st c a temb tdesc).2.cache = st.cache := by
  show (assess_business_model_match env (embed_texts env st
    [c.normalized_description.getD c.business_activity]).2).2.cache = st.cache
  rw [assess_cache, embed_texts_cache]

/-- The scoring stage never touches the cache. -/
theorem scoreStage_cache (env : OracleEnv) (a : TargetAnalysis) (temb : List Rat)
    (tdesc : String) :
    ∀ (l : List ComparableCompany) (st : PState),
      (scoreStage env st a temb tdesc l).2.cache = st.cache := by
  intro l
  induction l with
  | nil => intro st; rfl
  | cons c rest ih =>
    intro st
    rw [scoreStage, ih, score_comparable_cache]

/-- Candidate generation never touches the cache. -/
theorem generateGo_cache (env : OracleEnv) (target : TargetCompany)
    (a : TargetAnalysis) (mc : Nat) (b : Bool) :
    ∀ (fuel attempt : Nat) (st : PState),
      (generateGo env target a mc b fuel attempt st).2.cache = st.cache := by
  intro fuel
  induction fuel with
  | zero =>
    intro attempt st
    rw [generateGo]
    rcases h : env.genO st.nGen with _ | _ | cs <;> simp
  | succ f ih =>
    intro attempt st
    rw [generateGo]
    rcases h : env.genO st.nGen with _ | _ | cs <;> simp [ih]

/-- Rejections of validate_and_rank_comparables are well-formed, and
the cache stays well-formed. -/
theorem validate_and_rank_wf {env : OracleEnv} (he : EnvWF env) {st : PState}
    (hc : cacheWF st.cache) (cands : List ComparableCompany) (a : TargetAnalysis)
    (temb : List Rat) (tdesc : String) (mr ma : Nat) :
    (∀ r ∈ (validate_and_rank_comparables env st cands a temb tdesc mr ma).1.2,
      RejWF r) ∧
    cacheWF (validate_and_rank_comparables env st cands a temb tdesc mr ma).2.cache := by
  have hvc := validate_companies_wf he hc (dataStage cands).1
  constructor
  · intro r hr
    rcases List.mem_append.1 hr with hr | hr
    · exact dataStage_rej_wf r hr
    · exact hvc.1 r hr
  · show cacheWF (rankedStage env st cands a temb tdesc).2.cache
    rw [show (rankedStage env st cands a temb tdesc).2.cache
        = (validate_companies env st (dataStage cands).1).2.cache from by
      rw [rankedStage]
      rw [scoreStage_cache, normStage_cache]]
    exact hvc.2

/-- Target analysis never changes the state. -/
theorem analyze_target_company_state (env : OracleEnv) (st : PState)
    (t : TargetCompany) : (analyze_target_company env st t).2 = st := by
  rcases h : env.analysisO <;> simp [analyze_target_company, h]

/-- Normalization never touches the cache. -/
theorem normalize_cache (env : OracleEnv) (st : PState) (d : String)
    (a : TargetAnalysis) :
    (normalize_for_comparability env st d a).2.cache = st.cache := by
  rcases h : env.normO st.nNorm <;> simp [normalize_for_comparability, h]

/-- The attempt loop only surfaces well-formed rejections, for a
well-formed environment, a well-formed cache and a well-formed incoming
best. -/
theorem findLoop_wf {env : OracleEnv} (he : EnvWF env) (target : TargetCompany)
    (a : TargetAnalysis) (temb : List Rat) (mr mA : Nat) :
    ∀ (fuel attempt : Nat) (best : List ComparableCompany × List Rejection)
      (st : PState), cacheWF st.cache → (∀ r ∈ best.2, RejWF r) →
      ∀ r ∈ (findLoop env target a temb mr mA fuel attempt best st).1.2, RejWF r := by
  intro fuel
  induction fuel with
  | zero =>
    intro attempt best st _ hbest r hr
    exact hbest r (by simpa [findLoop] using hr)
  | succ f ih =>
    intro attempt best st hc hbest r hr
    simp only [findLoop] at hr
    by_cases hg :
        (generate_candidate_comparables env st target a 25 attempt
          (decide (1 < attempt) && decide (best.1.length < mr))).1 = []
    · rw [if_pos hg] at hr
      refine ih (attempt + 1) best _ ?_ hbest r hr
      show cacheWF (generate_candidate_comparables env st target a 25 attempt
        (decide (1 < attempt) && decide (best.1.length < mr))).2.cache
      rw [show (generate_candidate_comparables env st target a 25 attempt
        (decide (1 < attempt) && decide (best.1.length < mr))).2.cache = st.cache
        from generateGo_cache ..]
      exact hc
    · rw [if_neg hg] at hr
      have hcg : cacheWF (generate_candidate_comparables env st target a 25 attempt
          (decide (1 < attempt) && decide (best.1.length < mr))).2.cache := by
        rw [show (generate_candidate_comparables env st target a 25 attempt
          (decide (1 < attempt) && decide (best.1.length < mr))).2.cache = st.cache
          from generateGo_cache ..]
        exact hc
      have hvr := validate_and_rank_wf he hcg
        (generate_candidate_comparables env st target a 25 attempt
          (decide (1 < attempt) && decide (best.1.length < mr))).1
        a temb target.description mr 10
      split at hr
      · exact hvr.1 r hr
      · refine ih (attempt + 1) _ _ ?_ ?_ r hr
        · split <;> exact hvr.2
        · split
          · exact hvr.1
          · exact hbest

/-- Claim C9 (amended): every rejection surfaced in the search metadata
carries both a status and a reason key (structural in every rejection
literal of the source), and both values are non-null nonempty strings
provided every verification record the oracle returns has a status and
a reason that are not JSON null and not empty (absent fields are
defaulted by the source to nonempty strings).  Without that proviso a
null or empty oracle reason or status is copied verbatim into the
rejection. -/
theorem claim9_rejections_wf (env : OracleEnv) (target : TargetCompany)
    (mr mA : Nat) (he : EnvWF env) :
    ∀ r ∈ (find_comparables env target mr mA).1.2.rejected_companies,
      (∃ s, r.status = some s ∧ s ≠ "") ∧ (∃ s, r.reason = some s ∧ s ≠ "") := by
  intro r hr
  refine findLoop_wf he target _ _ mr mA mA 1 ([], []) _ ?_ (by simp) r hr
  show cacheWF (findSetup env target).2.cache
  rw [show (findSetup env target).2.cache = st0.cache from by
    show (embed_texts env _ _).2.cache = st0.cache
    rw [embed_texts_cache, normalize_cache,
      show (analyze_target_company env st0 target).2 = st0 from
        analyze_target_company_state ..]]
  intro k v hkv
  simp [st0, cacheLookup] at hkv

set_option maxRecDepth 2000 in
/-- Witness for C9: the DATA_INVALID rejection surfaced by a concrete
search has a nonempty status and reason. -/
theorem claim9_rejections_wf_w :
    (∃ s, (⟨candBad, some "DATA_INVALID", some "Incomplete data", none, none, none⟩
      : Rejection).status = some s ∧ s ≠ "") ∧
    (∃ s, (⟨candBad, some "DATA_INVALID", some "Incomplete data", none, none, none⟩
      : Rejection).reason = some s ∧ s ≠ "") :=
  claim9_rejections_wf envC9w ⟨"Tgt", "desc", "sic"⟩ 0 3
    ⟨fun n vs h => by simp [envC9w, envBase] at h,
     fun n r h => by simp [envC9w, envBase] at h⟩
    _ (by with_unfolding_all decide)

set_option maxRecDepth 2000 in
/-- Counterexample to C9 as stated: a concrete search surfaces, in its
metadata, a rejection whose reason is null (None) — copied verbatim
from the oracle record — contradicting the claim that the reason is
never null or empty. -/
theorem claim9_cx :
    (find_comparables envC9 ⟨"Tgt", "desc", "sic"⟩ 1 3).1.2.rejected_companies
      = [⟨candB, some "ACQUIRED", none, none, none, some "HIGH"⟩] := by
  with_unfolding_all decide
